import Mathlib

/-!
Verification of `codeintel-dependency-update-notifier` (src/main.py).

The file embeds the program shallowly:
* `Version.parse` / `versionLt` model `packaging.version` (PEP 440) on the
  grammar the tool exercises: release segments plus an optional pre-release
  qualifier.
* `checkPackage` / `check_for_updates` embed the update-detection loop,
  recording the log records the loop emits.
* `get_latest_package_version` embeds the parsing of pip's
  "(from versions: ...)" error output.
* `check_security_vulnerabilities`, `report` and `main` embed the remaining
  control flow, with the external processes ("pip list", per-package pip
  install probes, "safety") abstracted as oracle arguments.
-/

/-- Numeric value of a digit string (most significant digit first). -/
def digitsVal (cs : List Char) : Nat :=
  cs.foldl (fun a c => a * 10 + (c.toNat - 48)) 0

/-- Longest digit prefix of a character list, together with the remainder. -/
def takeDigits : List Char → List Char × List Char
  | [] => ([], [])
  | c :: cs =>
      if c.isDigit then
        let r := takeDigits cs
        (c :: r.1, r.2)
      else ([], c :: cs)

/-- Parse the dotted release part `N(.N)*`, returning the numeric segments and
the unconsumed remainder; fails when the input does not start with a digit.
`fuel` bounds the recursion; callers pass the input length plus one, which is
always enough because every step consumes at least one character. -/
def parseSegs (fuel : Nat) (cs : List Char) : Option (List Nat × List Char) :=
  match fuel with
  | 0 => none
  | f + 1 =>
      let d := takeDigits cs
      if d.1.isEmpty then none
      else
        match d.2 with
        | '.' :: c :: rest =>
            if c.isDigit then
              match parseSegs f (c :: rest) with
              | some (segs, rem) => some (digitsVal d.1 :: segs, rem)
              | none => none
            else some ([digitsVal d.1], '.' :: c :: rest)
        | r => some ([digitsVal d.1], r)

/-- PEP 440 pre-release letters, normalised to a rank:
a/alpha < b/beta < c/rc/pre/preview. -/
def preRank (w : List Char) : Option Nat :=
  if w = "a".toList ∨ w = "alpha".toList then some 0
  else if w = "b".toList ∨ w = "beta".toList then some 1
  else if w = "c".toList ∨ w = "rc".toList ∨ w = "pre".toList ∨ w = "preview".toList then some 2
  else none

/-- Separators PEP 440 allows around the pre-release qualifier. -/
def isSep (c : Char) : Bool := c == '-' || c == '_' || c == '.'

/-- Drop one leading separator, if present. -/
def dropSep : List Char → List Char
  | [] => []
  | c :: cs => if isSep c then cs else c :: cs

/-- Longest alphabetic prefix of a character list, with the remainder. -/
def takeAlphas : List Char → List Char × List Char
  | [] => ([], [])
  | c :: cs =>
      if c.isAlpha then
        let r := takeAlphas cs
        (c :: r.1, r.2)
      else ([], c :: cs)

/-- Parse the optional pre-release suffix
`[-_.]? (a|b|c|rc|alpha|beta|pre|preview) [-_.]? N?`, which must consume the
whole remainder of the version string. Returns `some none` when there is no
suffix, `some (some (rank, n))` for a pre-release, `none` when malformed. -/
def parsePre (cs : List Char) : Option (Option (Nat × Nat)) :=
  match cs with
  | [] => some none
  | _ =>
      let w := takeAlphas (dropSep cs)
      match preRank w.1 with
      | none => none
      | some rank =>
          let d := takeDigits (dropSep w.2)
          if d.2.isEmpty then some (some (rank, digitsVal d.1))
          else none

/-- A parsed version value: numeric release segments plus an optional
pre-release qualifier (rank and number). -/
structure PyVersion where
  release : List Nat
  pre : Option (Nat × Nat)
  deriving DecidableEq, Repr

/-- Model of `packaging.version.parse` (PEP 440) as used at src/main.py:111,
restricted to the grammar `v? N(.N)* pre?` with surrounding whitespace and
case folding; strings with epoch, post-release, dev or local parts lie outside
the model and are rejected. A malformed string yields `none`
(the `InvalidVersion` exception in the source). -/
def Version.parse (s : String) : Option PyVersion :=
  let cs0 := s.toList.map Char.toLower
  let cs1 := cs0.dropWhile Char.isWhitespace
  let cs2 := (cs1.reverse.dropWhile Char.isWhitespace).reverse
  let cs3 := match cs2 with
             | 'v' :: rest => rest
             | l => l
  match parseSegs (cs3.length + 1) cs3 with
  | none => none
  | some (segs, rem) =>
      match parsePre rem with
      | none => none
      | some p => some ⟨segs, p⟩

/-- Trailing zero release segments are insignificant in PEP 440 comparison:
packaging strips them from the comparison key. -/
def stripZeros (l : List Nat) : List Nat :=
  (l.reverse.dropWhile (· == 0)).reverse

/-- Lexicographic order on integer tuples, as Python compares the release
tuples of the comparison keys (a strict prefix sorts first). -/
def tupLt : List Nat → List Nat → Bool
  | [], [] => false
  | [], _ :: _ => true
  | _ :: _, [] => false
  | x :: xs, y :: ys => if x = y then tupLt xs ys else decide (x < y)

/-- Order on the pre-release component of the comparison key: a pre-release
sorts before the corresponding final release (`none` plays packaging's
Infinity placeholder for "no pre-release"). -/
def preLt : Option (Nat × Nat) → Option (Nat × Nat) → Bool
  | none, _ => false
  | some _, none => true
  | some p, some q => if p.1 = q.1 then decide (p.2 < q.2) else decide (p.1 < q.1)

/-- `Version.__lt__` of packaging: compare the comparison keys, i.e. the
zero-stripped release tuples and then the pre-release keys. -/
def versionLt (v w : PyVersion) : Bool :=
  if stripZeros v.release = stripZeros w.release then preLt v.pre w.pre
  else tupLt (stripZeros v.release) (stripZeros w.release)

/-- Spec-side ordering, written from the specification's words: numeric
segment-wise comparison with the shorter release padded by zeros, and a
pre-release sorting before the corresponding final release. -/
def padLt : List Nat → List Nat → Bool
  | [], [] => false
  | [], y :: ys => if y = 0 then padLt [] ys else true
  | x :: xs, [] => if x = 0 then padLt xs [] else false
  | x :: xs, y :: ys => if x = y then padLt xs ys else decide (x < y)

/-- Spec-side semantic-version order on parsed versions. -/
def specSemverLt (v w : PyVersion) : Bool :=
  if padLt v.release w.release then true
  else if padLt w.release v.release then false
  else preLt v.pre w.pre

/-- The comparison the Update Detector performs on two raw strings:
`Version(a) < Version(b)` when both parse, `none` otherwise. -/
def ltStr (a b : String) : Option Bool :=
  match Version.parse a, Version.parse b with
  | some v, some w => some (versionLt v w)
  | _, _ => none

/-! ## The source comparison agrees with the spec's segment-wise ordering -/

lemma tupLt_irrefl (x : List Nat) : tupLt x x = false := by
  induction x with
  | nil => rfl
  | cons a xs ih => simp [tupLt, ih]

lemma tupLt_eq_of_not (x : List Nat) :
    ∀ y, tupLt x y = false → tupLt y x = false → x = y := by
  induction x with
  | nil =>
    intro y h1 _
    cases y with
    | nil => rfl
    | cons b ys => simp [tupLt] at h1
  | cons a xs ih =>
    intro y h1 h2
    cases y with
    | nil => simp [tupLt] at h2
    | cons b ys =>
      by_cases hab : a = b
      · subst hab
        simp only [tupLt, if_pos rfl] at h1 h2
        rw [ih ys h1 h2]
      · have hba : b ≠ a := fun h => hab h.symm
        simp only [tupLt, if_neg hab, decide_eq_false_iff_not] at h1
        simp only [tupLt, if_neg hba, decide_eq_false_iff_not] at h2
        exact absurd (by omega : a = b) hab

lemma padLt_nil_right (x : List Nat) : padLt x [] = false := by
  induction x with
  | nil => simp [padLt]
  | cons a xs ih => by_cases h : a = 0 <;> simp [padLt, h, ih]

lemma padLt_nil_left_of_nonzero (y : List Nat) (h : ∃ n ∈ y, n ≠ 0) :
    padLt [] y = true := by
  induction y with
  | nil => simp at h
  | cons b ys ih =>
    by_cases hb : b = 0
    · subst hb
      simp only [padLt, if_pos rfl]
      apply ih
      obtain ⟨n, hn, hnz⟩ := h
      rcases List.mem_cons.mp hn with h0 | hmem
      · exact absurd h0 hnz
      · exact ⟨n, hmem, hnz⟩
    · simp [padLt, hb]

lemma padLt_append_zero_right (a : List Nat) :
    ∀ b, padLt a (b ++ [0]) = padLt a b := by
  induction a with
  | nil =>
    intro b
    induction b with
    | nil => simp [padLt]
    | cons y ys ihb => by_cases hy : y = 0 <;> simp [padLt, hy, ihb]
  | cons x xs ih =>
    intro b
    cases b with
    | nil =>
      by_cases hx : x = 0 <;> simp [padLt, hx, padLt_nil_right]
    | cons y ys =>
      by_cases hxy : x = y <;> simp [padLt, hxy, ih]

lemma padLt_append_zero_left (a : List Nat) :
    ∀ b, padLt (a ++ [0]) b = padLt a b := by
  induction a with
  | nil =>
    intro b
    cases b with
    | nil => simp [padLt]
    | cons y ys =>
      by_cases hy : y = 0
      · subst hy; simp [padLt]
      · have hpos : (0 : Nat) < y := Nat.pos_of_ne_zero hy
        have hne : (0 : Nat) ≠ y := Ne.symm hy
        simp [padLt, hy, hne, hpos]
  | cons x xs ih =>
    intro b
    cases b with
    | nil => by_cases hx : x = 0 <;> simp [padLt, hx, ih]
    | cons y ys => by_cases hxy : x = y <;> simp [padLt, hxy, ih]

lemma padLt_append_replicate_right (a b : List Nat) (k : Nat) :
    padLt a (b ++ List.replicate k 0) = padLt a b := by
  induction k generalizing b with
  | zero => simp
  | succ n ih =>
    rw [List.replicate_succ', ← List.append_assoc, padLt_append_zero_right, ih]

lemma padLt_append_replicate_left (a b : List Nat) (k : Nat) :
    padLt (a ++ List.replicate k 0) b = padLt a b := by
  induction k generalizing a with
  | zero => simp
  | succ n ih =>
    rw [List.replicate_succ', ← List.append_assoc, padLt_append_zero_left, ih]

lemma stripZeros_append_replicate (l : List Nat) :
    ∃ k, l = stripZeros l ++ List.replicate k 0 := by
  refine ⟨(l.reverse.takeWhile (· == 0)).length, ?_⟩
  have hrep : (l.reverse.takeWhile (· == 0)).reverse
      = List.replicate (l.reverse.takeWhile (· == 0)).length 0 := by
    apply List.eq_replicate_iff.mpr
    refine ⟨by simp, fun b hb => ?_⟩
    have hb' : b ∈ l.reverse.takeWhile (· == 0) := by simpa using hb
    have := List.mem_takeWhile_imp hb'
    simpa using this
  calc l = l.reverse.reverse := by rw [List.reverse_reverse]
    _ = (l.reverse.takeWhile (· == 0) ++ l.reverse.dropWhile (· == 0)).reverse := by
          rw [List.takeWhile_append_dropWhile]
    _ = (l.reverse.dropWhile (· == 0)).reverse ++ (l.reverse.takeWhile (· == 0)).reverse := by
          rw [List.reverse_append]
    _ = stripZeros l ++ List.replicate (l.reverse.takeWhile (· == 0)).length 0 := by
          rw [hrep]; rfl

lemma padLt_strip (a b : List Nat) :
    padLt (stripZeros a) (stripZeros b) = padLt a b := by
  obtain ⟨k, hk⟩ := stripZeros_append_replicate a
  obtain ⟨m, hm⟩ := stripZeros_append_replicate b
  conv_rhs => rw [hk, hm]
  rw [padLt_append_replicate_right, padLt_append_replicate_left]

lemma head?_dropWhile {α : Type} (p : α → Bool) (l : List α) :
    ∀ a, (l.dropWhile p).head? = some a → p a = false := by
  induction l with
  | nil => intro a ha; simp at ha
  | cons c cs ih =>
    intro a ha
    rw [List.dropWhile_cons] at ha
    by_cases hc : p c = true
    · rw [if_pos hc] at ha
      exact ih a ha
    · rw [if_neg hc] at ha
      obtain rfl : c = a := by simpa using ha
      simpa using hc

lemma noTrailZero_stripZeros (l : List Nat) :
    ∀ n, (stripZeros l).getLast? = some n → n ≠ 0 := by
  intro n hn h0
  subst h0
  unfold stripZeros at hn
  rw [List.getLast?_reverse] at hn
  have := head?_dropWhile (· == 0) l.reverse 0 hn
  simp at this

lemma noTrailZero_tail (a : Nat) (xs : List Nat)
    (h : ∀ n, (a :: xs).getLast? = some n → n ≠ 0) :
    ∀ n, xs.getLast? = some n → n ≠ 0 := by
  intro n hn
  apply h
  cases xs with
  | nil => simp at hn
  | cons b ys => rw [List.getLast?_cons_cons]; exact hn

lemma exists_nonzero_of_noTrail (y : List Nat)
    (hy : ∀ n, y.getLast? = some n → n ≠ 0) (hne : y ≠ []) :
    ∃ n ∈ y, n ≠ 0 := by
  induction y with
  | nil => exact absurd rfl hne
  | cons a l ih =>
    cases l with
    | nil => exact ⟨a, by simp, hy a (by simp)⟩
    | cons b t =>
      obtain ⟨n, hn, hnz⟩ := ih (noTrailZero_tail a _ hy) (by simp)
      exact ⟨n, List.mem_cons_of_mem a hn, hnz⟩

lemma tupLt_eq_padLt (x : List Nat) :
    ∀ y, (∀ n, x.getLast? = some n → n ≠ 0) → (∀ n, y.getLast? = some n → n ≠ 0) →
      tupLt x y = padLt x y := by
  induction x with
  | nil =>
    intro y _ hy
    cases y with
    | nil => simp [tupLt, padLt]
    | cons b ys =>
      have := padLt_nil_left_of_nonzero (b :: ys)
        (exists_nonzero_of_noTrail _ hy (by simp))
      simp [tupLt, this]
  | cons a xs ih =>
    intro y hx hy
    cases y with
    | nil => simp [tupLt, padLt_nil_right]
    | cons b ys =>
      by_cases hab : a = b
      · subst hab
        simp only [tupLt, padLt, if_pos rfl]
        exact ih ys (noTrailZero_tail a _ hx) (noTrailZero_tail a _ hy)
      · simp only [tupLt, padLt, if_neg hab]

lemma tupLt_stripZeros (a b : List Nat) :
    tupLt (stripZeros a) (stripZeros b) = padLt a b := by
  rw [tupLt_eq_padLt (stripZeros a) (stripZeros b)
        (noTrailZero_stripZeros a) (noTrailZero_stripZeros b)]
  exact padLt_strip a b

lemma versionLt_eq_specSemverLt (v w : PyVersion) : versionLt v w = specSemverLt v w := by
  unfold versionLt specSemverLt
  by_cases h : stripZeros v.release = stripZeros w.release
  · have h1 : padLt v.release w.release = false := by
      rw [← tupLt_stripZeros, h, tupLt_irrefl]
    have h2 : padLt w.release v.release = false := by
      rw [← tupLt_stripZeros, h, tupLt_irrefl]
    simp [h, h1, h2]
  · rw [if_neg h]
    cases hb : tupLt (stripZeros v.release) (stripZeros w.release) with
    | true =>
      have p1 : padLt v.release w.release = true := by rw [← tupLt_stripZeros, hb]
      simp [p1]
    | false =>
      have hb' : tupLt (stripZeros w.release) (stripZeros v.release) = true := by
        cases hcb : tupLt (stripZeros w.release) (stripZeros v.release) with
        | true => rfl
        | false => exact absurd (tupLt_eq_of_not _ _ hb hcb) h
      have p1 : padLt v.release w.release = false := by rw [← tupLt_stripZeros, hb]
      have p2 : padLt w.release v.release = true := by rw [← tupLt_stripZeros, hb']
      simp [p1, p2]

/-! ## Update Detector (`check_for_updates`, src/main.py:92-123) -/

/-- A Package Record as produced by `get_installed_packages`
(pip list entries: keys `name` and `version`). -/
structure Package where
  name : String
  version : String
  deriving DecidableEq, Repr

/-- An Update Candidate as appended to `updates_available`. -/
structure UpdateCandidate where
  name : String
  installed_version : String
  latest_version : String
  deriving DecidableEq, Repr

/-- The log records `check_for_updates` can emit for one package. -/
inductive LogEvent where
  | infoUpdateAvailable (name installed latest : String)
  | warnInvalidVersion (name : String)
  | warnNoLatest (name : String)
  deriving DecidableEq, Repr

/-- The package a log record is about. -/
def LogEvent.about : LogEvent → String
  | .infoUpdateAvailable n _ _ => n
  | .warnInvalidVersion n => n
  | .warnNoLatest n => n

/-- Whether a log record is a warning (`logging.warning`). -/
def LogEvent.isWarn : LogEvent → Bool
  | .infoUpdateAvailable _ _ _ => false
  | .warnInvalidVersion _ => true
  | .warnNoLatest _ => true

/-- One iteration of the loop body of `check_for_updates`: the candidate
appended (if any) and the log records emitted, for one package. `resolver`
abstracts `get_latest_package_version`; `if latest_version:` is Python
truthiness, false both for `None` and for the empty string. -/
def checkPackage (resolver : String → Option String) (p : Package) :
    Option UpdateCandidate × List LogEvent :=
  match resolver p.name with
  | some latest =>
      if latest = "" then (none, [LogEvent.warnNoLatest p.name])
      else
        match Version.parse p.version, Version.parse latest with
        | some vi, some vl =>
            if versionLt vi vl then
              (some ⟨p.name, p.version, latest⟩,
               [LogEvent.infoUpdateAvailable p.name p.version latest])
            else (none, [])
        | _, _ => (none, [LogEvent.warnInvalidVersion p.name])
  | none => (none, [LogEvent.warnNoLatest p.name])

/-- `check_for_updates` from src/main.py: walk the installed packages in
order, appending an update candidate whenever installed < latest, and skipping
(with a warning) packages whose lookup is indeterminate or whose version
strings do not parse. -/
def check_for_updates (resolver : String → Option String) :
    List Package → List UpdateCandidate × List LogEvent
  | [] => ([], [])
  | p :: ps =>
      ((checkPackage resolver p).1.toList ++ (check_for_updates resolver ps).1,
       (checkPackage resolver p).2 ++ (check_for_updates resolver ps).2)

/-- The claim's membership condition: the Resolver answer is determined, both
version strings parse, and installed is strictly below latest. -/
def isUpdateCandidate (resolver : String → Option String) (p : Package) : Bool :=
  match resolver p.name with
  | some latest =>
      match Version.parse p.version, Version.parse latest with
      | some vi, some vl => versionLt vi vl
      | _, _ => false
  | none => false

/-- The record built for a package that passes the condition. -/
def candidateOf (resolver : String → Option String) (p : Package) : UpdateCandidate :=
  ⟨p.name, p.version, (resolver p.name).getD ""⟩

/-- Number of warnings emitted about package `n`. -/
def warnCountFor (n : String) (logs : List LogEvent) : Nat :=
  (logs.filter (fun e => e.isWarn && (LogEvent.about e == n))).length

lemma parse_empty_string : Version.parse "" = none := rfl

lemma checkPackage_fst (r : String → Option String) (p : Package) :
    (checkPackage r p).1 =
      if isUpdateCandidate r p then some (candidateOf r p) else none := by
  cases hres : r p.name with
  | none => simp [checkPackage, isUpdateCandidate, candidateOf, hres]
  | some latest =>
    by_cases hl : latest = ""
    · subst hl
      cases hvi : Version.parse p.version <;>
        simp [checkPackage, isUpdateCandidate, candidateOf, hres, parse_empty_string, hvi]
    · cases hvi : Version.parse p.version with
      | none => simp [checkPackage, isUpdateCandidate, candidateOf, hres, hl, hvi]
      | some vi =>
        cases hvl : Version.parse latest with
        | none => simp [checkPackage, isUpdateCandidate, candidateOf, hres, hl, hvi, hvl]
        | some vl =>
          by_cases hlt : versionLt vi vl <;>
            simp [checkPackage, isUpdateCandidate, candidateOf, hres, hl, hvi, hvl, hlt]

lemma checkPackage_logs_about (r : String → Option String) (p : Package) :
    ∀ e ∈ (checkPackage r p).2, LogEvent.about e = p.name := by
  intro e he
  cases hres : r p.name with
  | none =>
    simp [checkPackage, hres] at he
    simp [he, LogEvent.about]
  | some latest =>
    by_cases hl : latest = ""
    · subst hl
      simp [checkPackage, hres] at he
      simp [he, LogEvent.about]
    · cases hvi : Version.parse p.version with
      | none =>
        simp [checkPackage, hres, hl, hvi] at he
        simp [he, LogEvent.about]
      | some vi =>
        cases hvl : Version.parse latest with
        | none =>
          simp [checkPackage, hres, hl, hvi, hvl] at he
          simp [he, LogEvent.about]
        | some vl =>
          by_cases hlt : versionLt vi vl
          · simp [checkPackage, hres, hl, hvi, hvl, hlt] at he
            simp [he, LogEvent.about]
          · simp [checkPackage, hres, hl, hvi, hvl, hlt] at he

lemma check_for_updates_fst_eq (r : String → Option String) (ps : List Package) :
    (check_for_updates r ps).1 =
      (ps.filter (isUpdateCandidate r)).map (candidateOf r) := by
  induction ps with
  | nil => rfl
  | cons p t ih =>
    simp only [check_for_updates, List.filter_cons]
    rw [checkPackage_fst]
    by_cases hp : isUpdateCandidate r p
    · simp [hp, ih]
    · simp [hp, ih]

lemma check_for_updates_append (r : String → Option String) (xs ys : List Package) :
    check_for_updates r (xs ++ ys) =
      ((check_for_updates r xs).1 ++ (check_for_updates r ys).1,
       (check_for_updates r xs).2 ++ (check_for_updates r ys).2) := by
  induction xs with
  | nil => simp [check_for_updates]
  | cons p t ih => simp [check_for_updates, ih]

lemma mem_check_fst_name (r : String → Option String) (ps : List Package)
    (c : UpdateCandidate) (hc : c ∈ (check_for_updates r ps).1) :
    c.name ∈ ps.map Package.name := by
  rw [check_for_updates_fst_eq] at hc
  obtain ⟨p, hp, hpc⟩ := List.mem_map.mp hc
  have hmem : p ∈ ps := (List.mem_filter.mp hp).1
  have : c.name = p.name := by rw [← hpc]; rfl
  rw [this]
  exact List.mem_map.mpr ⟨p, hmem, rfl⟩

lemma check_logs_about (r : String → Option String) (ps : List Package) :
    ∀ e ∈ (check_for_updates r ps).2, LogEvent.about e ∈ ps.map Package.name := by
  induction ps with
  | nil => intro e he; simp [check_for_updates] at he
  | cons p t ih =>
    intro e he
    simp only [check_for_updates, List.mem_append] at he
    rcases he with h | h
    · simp [checkPackage_logs_about r p e h]
    · simp [ih e h]

lemma warnCountFor_eq_zero (n : String) (logs : List LogEvent)
    (h : ∀ e ∈ logs, LogEvent.about e ≠ n) : warnCountFor n logs = 0 := by
  unfold warnCountFor
  rw [List.length_eq_zero]
  rw [List.filter_eq_nil_iff]
  intro e he
  simp [h e he]

lemma warnCountFor_append (n : String) (l1 l2 : List LogEvent) :
    warnCountFor n (l1 ++ l2) = warnCountFor n l1 + warnCountFor n l2 := by
  unfold warnCountFor
  rw [List.filter_append, List.length_append]

/-! ## Version Resolver (`get_latest_package_version`, src/main.py:51-89) -/

/-- Python `str.find`: index of the first occurrence of `pat`, or `none`
(Python's -1). -/
def findSub (pat : List Char) : List Char → Option Nat
  | [] => if pat.isPrefixOf ([] : List Char) then some 0 else none
  | c :: cs =>
      if pat.isPrefixOf (c :: cs) then some 0
      else (findSub pat cs).map (· + 1)

/-- Python `str.strip()`: remove surrounding whitespace. -/
def stripChars (cs : List Char) : List Char :=
  ((cs.dropWhile Char.isWhitespace).reverse.dropWhile Char.isWhitespace).reverse

/-- Python `str.split(sep)` for a one-character separator: never returns an
empty list (splitting the empty string gives `[[]]`). -/
def splitOnChar (sep : Char) : List Char → List (List Char)
  | [] => [[]]
  | c :: cs =>
      if c == sep then [] :: splitOnChar sep cs
      else
        match splitOnChar sep cs with
        | [] => [[c]]
        | h :: t => (c :: h) :: t

/-- The structured marker searched in pip's error output. -/
def markerChars : List Char := "(from versions:".toList

/-- `get_latest_package_version` from src/main.py, modelled on the captured
standard-error text of the deliberately failing install: locate the
"(from versions:" marker and the closing parenthesis after it, split the span
on commas, strip each entry, and return the last one; `none` models the
Python `return None` paths (marker or closing parenthesis absent). -/
def get_latest_package_version (output : List Char) : Option (List Char) :=
  match findSub markerChars output with
  | none => none
  | some i =>
      match findSub [')'] (output.drop (i + markerChars.length)) with
      | none => none
      | some j =>
          match ((splitOnChar ','
              (stripChars ((output.drop (i + markerChars.length)).take j))).map
              stripChars).getLast? with
          | none => none
          | some v => some v

lemma splitOnChar_ne_nil (sep : Char) (cs : List Char) : splitOnChar sep cs ≠ [] := by
  cases cs with
  | nil => simp [splitOnChar]
  | cons c t =>
    by_cases hc : (c == sep) = true <;>
      rcases h : splitOnChar sep t with _ | ⟨hd, tl⟩ <;>
        simp [splitOnChar, hc, h]

lemma getLast?_ne_none {α : Type} (l : List α) (h : l ≠ []) : l.getLast? ≠ none := by
  induction l with
  | nil => exact absurd rfl h
  | cons a t ih =>
    cases t with
    | nil => simp
    | cons b s => rw [List.getLast?_cons_cons]; exact ih (by simp)

/-! ## Security scan (`check_security_vulnerabilities`, src/main.py:125-148) -/

/-- Result of the `safety check --full-report` subprocess. -/
structure ScanResult where
  returncode : Int
  stdout : String
  stderr : String
  deriving DecidableEq, Repr

/-- The log records `check_security_vulnerabilities` can emit. -/
inductive SecLogEvent where
  | infoNoVulns
  | warnVulnsFound (report : String)
  | errScanFailed (returncode : Int) (stderr : String)
  | errSafetyNotFound
  deriving DecidableEq, Repr

/-- `check_security_vulnerabilities`: classify the scanner's exit code
(0 = clean, 1 = vulnerabilities found with stdout relayed, anything else =
failure); `none` models `safety` missing (FileNotFoundError). The function
always returns: every failure is downgraded to a log record. -/
def check_security_vulnerabilities (res : Option ScanResult) : List SecLogEvent :=
  match res with
  | none => [SecLogEvent.errSafetyNotFound]
  | some r =>
      if r.returncode = 0 then [SecLogEvent.infoNoVulns]
      else if r.returncode = 1 then [SecLogEvent.warnVulnsFound r.stdout]
      else [SecLogEvent.errScanFailed r.returncode r.stderr]

/-! ## Reporter and `main` (src/main.py:150-179) -/

/-- The line printed for one update candidate. -/
def renderCandidate (u : UpdateCandidate) : String :=
  "- " ++ u.name ++ ": Installed version " ++ u.installed_version ++
    ", latest version " ++ u.latest_version

/-- The printing in `main`: a header plus one line per update when any update
was found, otherwise the "up to date" message. -/
def report (updates : List UpdateCandidate) : List String :=
  match updates with
  | [] => ["All dependencies are up to date."]
  | _ :: _ => "Updates available:" :: updates.map renderCandidate

/-- The process-level log stream of one run. -/
inductive RunLog where
  | det (e : LogEvent)
  | errRetrieveFailed
  | sec (e : SecLogEvent)
  deriving DecidableEq, Repr

/-- Observable outcome of one run: exit status, the lines printed to standard
output, and the log stream. -/
structure MainResult where
  exitCode : Nat
  stdout : List String
  logs : List RunLog
  deriving DecidableEq, Repr

/-- `main` from src/main.py over its environment: `lister` is the outcome of
`get_installed_packages` (`none` models every failure path returning `None`),
`resolver` abstracts the per-name latest-version lookup, `checkSecurity` the
`--check-security` flag, `scanner` the safety invocation. Python's
`if installed_packages:` is truthiness: `None` and the empty list both take
the failure branch. The function is total and always yields exit code 0. -/
def mainRun (lister : Option (List Package)) (resolver : String → Option String)
    (checkSecurity : Bool) (scanner : Option ScanResult) : MainResult :=
  let upd : List String × List RunLog :=
    match lister with
    | some (p :: ps) =>
        (report (check_for_updates resolver (p :: ps)).1,
         (check_for_updates resolver (p :: ps)).2.map RunLog.det)
    | some [] => ([], [RunLog.errRetrieveFailed])
    | none => ([], [RunLog.errRetrieveFailed])
  let secLogs : List RunLog :=
    if checkSecurity then (check_security_vulnerabilities scanner).map RunLog.sec
    else []
  ⟨0, upd.1, upd.2 ++ secLogs⟩

lemma report_ne_nil (updates : List UpdateCandidate) : report updates ≠ [] := by
  cases updates <;> simp [report]

lemma check_security_ne_nil (res : Option ScanResult) :
    check_security_vulnerabilities res ≠ [] := by
  cases res with
  | none => simp [check_security_vulnerabilities]
  | some r =>
    by_cases h0 : r.returncode = 0 <;> by_cases h1 : r.returncode = 1 <;>
      simp [check_security_vulnerabilities, h0, h1]

/-! ## Claims -/

/-- Claim C1: for every pair of versions that parse, the comparison the Update
Detector performs agrees with semantic-version ordering — numeric segment-wise
with a pre-release sorting before the corresponding final release — and not
with lexical string ordering; in particular Version "1.9.0" < Version "1.10.0"
holds and Version "2.0.0" < Version "2.0.0rc1" does not, while the lexical
string order has "1.10.0" before "1.9.0". -/
theorem versionLt_matches_semver_spec :
    (∀ v w : PyVersion, versionLt v w = specSemverLt v w) ∧
    ltStr "1.9.0" "1.10.0" = some true ∧
    ltStr "2.0.0" "2.0.0rc1" = some false ∧
    "1.10.0".toList < "1.9.0".toList :=
  ⟨versionLt_eq_specSemverLt, by decide, by decide, by decide⟩

/-- Claim C2: the Update Detector's output is exactly the ordered subsequence
of its input (input order preserved, no re-sorting) consisting of the packages
whose Resolver answer is determined, whose installed and latest version
strings both parse, and whose installed version is strictly below the latest;
each output record carries that package's name, installed version and latest
version. -/
theorem check_for_updates_is_ordered_filter (r : String → Option String)
    (ps : List Package) :
    (check_for_updates r ps).1 =
      (ps.filter (isUpdateCandidate r)).map (candidateOf r) :=
  check_for_updates_fst_eq r ps

lemma checkPackage_congr (r₁ r₂ : String → Option String) (p : Package)
    (h : r₁ p.name = r₂ p.name) : checkPackage r₁ p = checkPackage r₂ p := by
  unfold checkPackage
  rw [h]

/-- Claim C9: the Update Detector is deterministic in its inputs — its result
depends only on the package list and on the Resolver's answers for the listed
package names, so two runs over the same answers yield identical candidate
lists. -/
theorem check_for_updates_deterministic (r₁ r₂ : String → Option String)
    (ps : List Package) (h : ∀ p ∈ ps, r₁ p.name = r₂ p.name) :
    check_for_updates r₁ ps = check_for_updates r₂ ps := by
  revert h
  induction ps with
  | nil => intro _; rfl
  | cons p t ih =>
    intro h
    have hp := h p (List.mem_cons_self p t)
    have ht := ih (fun q hq => h q (List.mem_cons_of_mem p hq))
    simp [check_for_updates, checkPackage_congr r₁ r₂ p hp, ht]

theorem check_for_updates_deterministic_witness :
    check_for_updates (fun _ => some "2.0") [⟨"foo", "1.0"⟩] =
      check_for_updates (fun n => if n == "foo" then some "2.0" else none)
        [⟨"foo", "1.0"⟩] :=
  check_for_updates_deterministic _ _ _ (by decide)

lemma checkPackage_skip_of_parse_fail (r : String → Option String) (p : Package)
    (latest : String) (hres : r p.name = some latest)
    (hfail : Version.parse p.version = none ∨ Version.parse latest = none) :
    (checkPackage r p).1 = none ∧ warnCountFor p.name (checkPackage r p).2 = 1 := by
  by_cases hl : latest = ""
  · subst hl
    constructor <;>
      simp [checkPackage, hres, warnCountFor, LogEvent.isWarn, LogEvent.about]
  · cases hvi : Version.parse p.version with
    | none =>
      constructor <;>
        simp [checkPackage, hres, hl, hvi, warnCountFor, LogEvent.isWarn, LogEvent.about]
    | some vi =>
      cases hvl : Version.parse latest with
      | none =>
        constructor <;>
          simp [checkPackage, hres, hl, hvi, hvl, warnCountFor, LogEvent.isWarn,
            LogEvent.about]
      | some vl =>
        rcases hfail with hf | hf
        · rw [hvi] at hf; exact absurd hf (by simp)
        · rw [hvl] at hf; exact absurd hf (by simp)

lemma checkPackage_skip_of_none (r : String → Option String) (p : Package)
    (hres : r p.name = none) :
    checkPackage r p = (none, [LogEvent.warnNoLatest p.name]) := by
  simp [checkPackage, hres]

lemma skipped_package_locality (r : String → Option String)
    (l₁ l₂ : List Package) (p : Package)
    (hfst : (checkPackage r p).1 = none)
    (hcnt : warnCountFor p.name (checkPackage r p).2 = 1)
    (hname : p.name ∉ (l₁ ++ l₂).map Package.name) :
    (check_for_updates r (l₁ ++ p :: l₂)).1 = (check_for_updates r (l₁ ++ l₂)).1 ∧
    p.name ∉ (check_for_updates r (l₁ ++ p :: l₂)).1.map UpdateCandidate.name ∧
    warnCountFor p.name (check_for_updates r (l₁ ++ p :: l₂)).2 = 1 := by
  have hname1 : p.name ∉ l₁.map Package.name := by
    intro h; exact hname (by simp [h])
  have hname2 : p.name ∉ l₂.map Package.name := by
    intro h; exact hname (by simp [h])
  have h1 : (check_for_updates r (l₁ ++ p :: l₂)).1
      = (check_for_updates r l₁).1 ++ (check_for_updates r l₂).1 := by
    rw [check_for_updates_append r l₁ (p :: l₂)]
    simp [check_for_updates, hfst]
  have h2 : (check_for_updates r (l₁ ++ p :: l₂)).2
      = (check_for_updates r l₁).2 ++ ((checkPackage r p).2 ++ (check_for_updates r l₂).2) := by
    rw [check_for_updates_append r l₁ (p :: l₂)]
    simp [check_for_updates]
  refine ⟨?_, ?_, ?_⟩
  · rw [h1, check_for_updates_append r l₁ l₂]
  · rw [h1]
    intro hmem
    rw [List.map_append, List.mem_append] at hmem
    rcases hmem with h | h
    · obtain ⟨c, hc, hcn⟩ := List.mem_map.mp h
      have hn := mem_check_fst_name r l₁ c hc
      rw [hcn] at hn
      exact hname1 hn
    · obtain ⟨c, hc, hcn⟩ := List.mem_map.mp h
      have hn := mem_check_fst_name r l₂ c hc
      rw [hcn] at hn
      exact hname2 hn
  · rw [h2, warnCountFor_append, warnCountFor_append]
    have z1 : warnCountFor p.name (check_for_updates r l₁).2 = 0 := by
      apply warnCountFor_eq_zero
      intro e he heq
      exact hname1 (heq ▸ check_logs_about r l₁ e he)
    have z2 : warnCountFor p.name (check_for_updates r l₂).2 = 0 := by
      apply warnCountFor_eq_zero
      intro e he heq
      exact hname2 (heq ▸ check_logs_about r l₂ e he)
    rw [z1, z2, hcnt]

/-- Claim C5: a package whose installed or latest version string fails to
parse (its Resolver answer being determined) is skipped: it never appears in
the Update Detector's output, exactly one warning is emitted for it, and the
failure is local — the remaining packages yield exactly the output they would
yield without it. Names are assumed unique, as the spec's data model states. -/
theorem invalid_version_skipped_one_warning (r : String → Option String)
    (l₁ l₂ : List Package) (p : Package) (latest : String)
    (hres : r p.name = some latest)
    (hfail : Version.parse p.version = none ∨ Version.parse latest = none)
    (hname : p.name ∉ (l₁ ++ l₂).map Package.name) :
    (check_for_updates r (l₁ ++ p :: l₂)).1 = (check_for_updates r (l₁ ++ l₂)).1 ∧
    p.name ∉ (check_for_updates r (l₁ ++ p :: l₂)).1.map UpdateCandidate.name ∧
    warnCountFor p.name (check_for_updates r (l₁ ++ p :: l₂)).2 = 1 := by
  obtain ⟨hfst, hcnt⟩ := checkPackage_skip_of_parse_fail r p latest hres hfail
  exact skipped_package_locality r l₁ l₂ p hfst hcnt hname

theorem invalid_version_skipped_one_warning_witness :
    (check_for_updates (fun _ => some "1.0")
        ([] ++ ⟨"foo", "not-a-version"⟩ :: [⟨"bar", "0.5"⟩])).1 =
      (check_for_updates (fun _ => some "1.0") ([] ++ [⟨"bar", "0.5"⟩])).1 ∧
    "foo" ∉ (check_for_updates (fun _ => some "1.0")
        ([] ++ ⟨"foo", "not-a-version"⟩ :: [⟨"bar", "0.5"⟩])).1.map UpdateCandidate.name ∧
    warnCountFor "foo" (check_for_updates (fun _ => some "1.0")
        ([] ++ ⟨"foo", "not-a-version"⟩ :: [⟨"bar", "0.5"⟩])).2 = 1 :=
  invalid_version_skipped_one_warning (fun _ => some "1.0") [] [⟨"bar", "0.5"⟩]
    ⟨"foo", "not-a-version"⟩ "1.0" rfl (Or.inl (by decide)) (by decide)

/-- Claim C6: a package whose Resolver lookup is indeterminate (the lookup
returns no latest version) is skipped with exactly one warning: it never
appears in the Update Detector's output and the remaining packages yield
exactly the output they would yield without it. Names are assumed unique, as
the spec's data model states. -/
theorem indeterminate_resolver_skipped_one_warning (r : String → Option String)
    (l₁ l₂ : List Package) (p : Package)
    (hres : r p.name = none)
    (hname : p.name ∉ (l₁ ++ l₂).map Package.name) :
    (check_for_updates r (l₁ ++ p :: l₂)).1 = (check_for_updates r (l₁ ++ l₂)).1 ∧
    p.name ∉ (check_for_updates r (l₁ ++ p :: l₂)).1.map UpdateCandidate.name ∧
    warnCountFor p.name (check_for_updates r (l₁ ++ p :: l₂)).2 = 1 := by
  have h := checkPackage_skip_of_none r p hres
  refine skipped_package_locality r l₁ l₂ p (by rw [h]) ?_ hname
  rw [h]
  simp [warnCountFor, LogEvent.isWarn, LogEvent.about]

theorem indeterminate_resolver_skipped_one_warning_witness :
    (check_for_updates (fun n => if n == "bar" then some "2.0" else none)
        ([] ++ ⟨"foo", "1.0"⟩ :: [⟨"bar", "1.0"⟩])).1 =
      (check_for_updates (fun n => if n == "bar" then some "2.0" else none)
        ([] ++ [⟨"bar", "1.0"⟩])).1 ∧
    "foo" ∉ (check_for_updates (fun n => if n == "bar" then some "2.0" else none)
        ([] ++ ⟨"foo", "1.0"⟩ :: [⟨"bar", "1.0"⟩])).1.map UpdateCandidate.name ∧
    warnCountFor "foo" (check_for_updates (fun n => if n == "bar" then some "2.0" else none)
        ([] ++ ⟨"foo", "1.0"⟩ :: [⟨"bar", "1.0"⟩])).2 = 1 :=
  indeterminate_resolver_skipped_one_warning
    (fun n => if n == "bar" then some "2.0" else none) [] [⟨"bar", "1.0"⟩]
    ⟨"foo", "1.0"⟩ (by decide) (by decide)

/-- Claim C7: when the "(from versions:" marker (or the closing parenthesis
after it) is absent from the pip error output, the lookup returns the
indeterminate sentinel; when both are present it returns the last entry of the
comma-separated list extracted between them — in that case the empty-list
guard in the source is dead and the result is never the sentinel. -/
theorem get_latest_marker_parsing (out : List Char) :
    (findSub markerChars out = none → get_latest_package_version out = none) ∧
    (∀ i, findSub markerChars out = some i →
      findSub [')'] (out.drop (i + markerChars.length)) = none →
      get_latest_package_version out = none) ∧
    (∀ i j, findSub markerChars out = some i →
      findSub [')'] (out.drop (i + markerChars.length)) = some j →
      get_latest_package_version out =
        ((splitOnChar ',' (stripChars ((out.drop (i + markerChars.length)).take j))).map
          stripChars).getLast? ∧
      get_latest_package_version out ≠ none) := by
  refine ⟨?_, ?_, ?_⟩
  · intro h
    simp [get_latest_package_version, h]
  · intro i hi hj
    simp [get_latest_package_version, hi, hj]
  · intro i j hi hj
    set vs := ((splitOnChar ','
        (stripChars ((out.drop (i + markerChars.length)).take j))).map stripChars) with hvs
    have hne : vs ≠ [] := by
      rw [hvs]
      intro h
      exact splitOnChar_ne_nil ',' _ (List.map_eq_nil_iff.mp h)
    cases hlast : vs.getLast? with
    | none => exact absurd hlast (getLast?_ne_none vs hne)
    | some v =>
      constructor
      · simp [get_latest_package_version, hi, hj, ← hvs, hlast]
      · simp [get_latest_package_version, hi, hj, ← hvs, hlast]

theorem get_latest_marker_parsing_witness :
    get_latest_package_version ("x (from versions: 1.0, 2.0) y".toList) =
      some ("2.0".toList) := by
  have h := (get_latest_marker_parsing ("x (from versions: 1.0, 2.0) y".toList)).2.2 2 9
    (by decide) (by decide)
  exact h.1.trans (by decide)

/-- Claim C3 (counterexample): when the Package Lister fails, the run still
exits 0 but prints nothing at all to standard output — no update summary, not
even the "up to date" message — contradicting "an update summary is always
printed to standard output". -/
theorem main_listing_failure_prints_nothing :
    (mainRun none (fun _ => none) false none).stdout = [] ∧
    (mainRun none (fun _ => none) false none).exitCode = 0 :=
  ⟨rfl, rfl⟩

/-- Claim C3 (amended): the run always completes with exit status 0 and no
escaping error, and an update summary (possibly the "up to date" message) is
printed to standard output exactly when the Lister yields a non-empty package
list; on a listing failure or an empty environment nothing is printed and the
failure appears only in the log stream. -/
theorem main_exit_zero_summary_iff_packages (lister : Option (List Package))
    (resolver : String → Option String) (checkSecurity : Bool)
    (scanner : Option ScanResult) :
    (mainRun lister resolver checkSecurity scanner).exitCode = 0 ∧
    ((mainRun lister resolver checkSecurity scanner).stdout ≠ [] ↔
      ∃ p ps, lister = some (p :: ps)) := by
  cases lister with
  | none => simp [mainRun]
  | some ps =>
    cases ps with
    | nil => simp [mainRun]
    | cons p t =>
      refine ⟨rfl, ?_⟩
      constructor
      · intro _
        exact ⟨p, t, rfl⟩
      · intro _
        exact report_ne_nil _

/-- Claim C4 (counterexample): for the single candidate foo 1.2.0 → 1.3.0 the
Reporter does not render the claimed line `foo: 1.2.0 -> 1.3.0`; it renders a
header plus a differently formatted line. -/
theorem report_format_counterexample :
    report [⟨"foo", "1.2.0", "1.3.0"⟩] ≠ ["foo: 1.2.0 -> 1.3.0"] ∧
    "foo: 1.2.0 -> 1.3.0" ∉ report [⟨"foo", "1.2.0", "1.3.0"⟩] ∧
    report [⟨"foo", "1.2.0", "1.3.0"⟩] =
      ["Updates available:",
       "- foo: Installed version 1.2.0, latest version 1.3.0"] :=
  ⟨by decide, by decide, by decide⟩

/-- Claim C4 (amended): for a non-empty candidate sequence the Reporter prints
the header line "Updates available:" followed by exactly one line per
candidate, of the form `- name: Installed version installed, latest version
latest`; for the empty sequence it prints the single message "All dependencies
are up to date.". -/
theorem report_format (updates : List UpdateCandidate) :
    report updates =
      (if updates.isEmpty then ["All dependencies are up to date."]
       else "Updates available:" :: updates.map renderCandidate) ∧
    (report updates).length = (if updates.isEmpty then 1 else updates.length + 1) := by
  cases updates <;> simp [report, renderCandidate]

/-- Claim C8: scanner exit code 0 is reported as clean, exit code 1 as
vulnerabilities found with the scanner's standard output relayed, any other
exit code — or a missing scanner — as a scan failure; the scan result never
affects the update report on standard output, and the security phase runs
(its log records are emitted) even when the Lister failed. -/
theorem security_scan_classification :
    (∀ r : ScanResult, r.returncode = 0 →
      check_security_vulnerabilities (some r) = [SecLogEvent.infoNoVulns]) ∧
    (∀ r : ScanResult, r.returncode = 1 →
      check_security_vulnerabilities (some r) = [SecLogEvent.warnVulnsFound r.stdout]) ∧
    (∀ r : ScanResult, r.returncode ≠ 0 → r.returncode ≠ 1 →
      check_security_vulnerabilities (some r) =
        [SecLogEvent.errScanFailed r.returncode r.stderr]) ∧
    check_security_vulnerabilities none = [SecLogEvent.errSafetyNotFound] ∧
    (∀ lister resolver checkSecurity s₁ s₂,
      (mainRun lister resolver checkSecurity s₁).stdout =
        (mainRun lister resolver checkSecurity s₂).stdout) ∧
    (∀ resolver scanner, ∃ e, RunLog.sec e ∈ (mainRun none resolver true scanner).logs) := by
  refine ⟨?_, ?_, ?_, rfl, ?_, ?_⟩
  · intro r h
    simp [check_security_vulnerabilities, h]
  · intro r h
    simp [check_security_vulnerabilities, h]
  · intro r h0 h1
    simp [check_security_vulnerabilities, h0, h1]
  · intro lister resolver checkSecurity s₁ s₂
    rfl
  · intro resolver scanner
    cases hc : check_security_vulnerabilities scanner with
    | nil => exact absurd hc (check_security_ne_nil scanner)
    | cons e t => exact ⟨e, by simp [mainRun, hc]⟩

theorem security_scan_classification_witness :
    check_security_vulnerabilities (some ⟨0, "ok", "e"⟩) = [SecLogEvent.infoNoVulns] ∧
    check_security_vulnerabilities (some ⟨1, "vulns", "e"⟩) =
      [SecLogEvent.warnVulnsFound "vulns"] ∧
    check_security_vulnerabilities (some ⟨2, "o", "boom"⟩) =
      [SecLogEvent.errScanFailed 2 "boom"] :=
  ⟨security_scan_classification.1 ⟨0, "ok", "e"⟩ rfl,
   security_scan_classification.2.1 ⟨1, "vulns", "e"⟩ rfl,
   security_scan_classification.2.2.1 ⟨2, "o", "boom"⟩ (by decide) (by decide)⟩

/-- Claim C10: when the Lister returns an empty package list the program takes
the failure branch: the retrieval-failure error is logged, update detection
does not run (no detector log records appear), and nothing — in particular not
the "up to date" message — is printed to standard output; the "up to date"
message is only ever printed when at least one package is installed. -/
theorem empty_package_list_failure_branch (resolver : String → Option String)
    (checkSecurity : Bool) (scanner : Option ScanResult) :
    (mainRun (some []) resolver checkSecurity scanner).stdout = [] ∧
    RunLog.errRetrieveFailed ∈ (mainRun (some []) resolver checkSecurity scanner).logs ∧
    (∀ e, RunLog.det e ∉ (mainRun (some []) resolver checkSecurity scanner).logs) ∧
    (∀ lister,
      "All dependencies are up to date." ∈ (mainRun lister resolver checkSecurity scanner).stdout →
      ∃ p ps, lister = some (p :: ps)) := by
  refine ⟨rfl, ?_, ?_, ?_⟩
  · simp [mainRun]
  · intro e
    cases checkSecurity <;> simp [mainRun]
  · intro lister hmem
    cases lister with
    | none => simp [mainRun] at hmem
    | some ps =>
      cases ps with
      | nil => simp [mainRun] at hmem
      | cons p t => exact ⟨p, t, rfl⟩

theorem empty_package_list_failure_branch_witness :
    ∃ p ps, (some [(⟨"foo", "1.0"⟩ : Package)] : Option (List Package)) = some (p :: ps) :=
  (empty_package_list_failure_branch (fun _ => none) false none).2.2.2
    (some [⟨"foo", "1.0"⟩]) (by decide)
